import Mathlib

/-!
Shallow embedding of the Keper browser extension (content.js and the
background script) and proofs of its specified properties.

The page is modelled as a list of image elements in DOM order; an element
is identified by its index in that list.  The element reference map
(`imageReferenceMap` in content.js) maps descriptor ids to element
indices.  Network effects (the per-image fetch of the scanner and the
single POST of the relay) are modelled as explicit oracle arguments.
-/

namespace Keper

/-- An `img` element: its natural dimensions and its current `src`. -/
structure Img where
  naturalWidth : Nat
  naturalHeight : Nat
  src : String
  deriving DecidableEq, Repr

/-- A document: the `img` elements of the page, in DOM order. -/
abbrev Doc := List Img

/-- An image descriptor `{ id, data }` as pushed onto `results` in
`collectImageData`. -/
structure ImageDescriptor where
  id : String
  data : String
  deriving DecidableEq, Repr

/-- A processed result `{ id, translatedData }` as consumed by
`replaceImages`; `none` models a `null` or absent `translatedData`. -/
structure TranslatedImage where
  id : String
  translatedData : Option String
  deriving DecidableEq, Repr

/-- The element reference map, `imageReferenceMap` in content.js: an
association of descriptor ids to element indices, newest entry first
(JS property assignment shadows the old value). -/
abbrev RefMap := List (String × Nat)

/-- Property read `imageReferenceMap[id]`. -/
def lookupRef (m : RefMap) (k : String) : Option Nat :=
  (m.find? (fun p => p.1 == k)).map (fun p => p.2)

/-- Property write `imageReferenceMap[id] = img`. -/
def insertRef (m : RefMap) (k : String) (v : Nat) : RefMap :=
  (k, v) :: m

/-- The template literal `img-${i}` of content.js line 29. -/
def mkId (i : Nat) : String :=
  "img-" ++ toString i

/-- The loop body of `collectImageData` (content.js lines 24-38):
walks the remaining elements carrying the running index `i`, threads the
reference map, and accumulates the `results` array.  `fetch src` is the
outcome of `convertImageToBase64 src`: `some b` a base64 payload, `none`
a rejected fetch / decode. -/
def collectAux (fetch : String → Option String) :
    List Img → Nat → RefMap → RefMap × List ImageDescriptor
  | [], _, m => (m, [])
  | img :: rest, i, m =>
    if img.naturalWidth ≤ 50 ∨ img.naturalHeight ≤ 50 then
      collectAux fetch rest (i + 1) m
    else
      let m' := insertRef m (mkId i) i
      match fetch img.src with
      | some b64 =>
        let r := collectAux fetch rest (i + 1) m'
        (r.1, ⟨mkId i, b64⟩ :: r.2)
      | none => collectAux fetch rest (i + 1) m'

/-- The message sent by `chrome.runtime.sendMessage` at the end of
`collectImageData`. -/
structure FoundMessage where
  action : String
  images : List ImageDescriptor
  deriving DecidableEq, Repr

/-- `collectImageData` (content.js lines 18-44): scans the document,
updates the reference map `m`, and sends exactly one `IMAGES_FOUND`
message carrying the collected descriptors. -/
def collectImageData (m : RefMap) (doc : Doc) (fetch : String → Option String) :
    RefMap × FoundMessage :=
  let r := collectAux fetch doc 0 m
  (r.1, ⟨"IMAGES_FOUND", r.2⟩)

/-- Outcome of the POST to `http://localhost:5000/process_images`, as
seen by the relay: the fetch promise rejects (`networkError`), or a
response arrives with a status flag (`ok` = 2xx) and a body that either
parses as JSON (`some`) or makes `response.json()` reject (`none`). -/
inductive FetchOutcome where
  | networkError : FetchOutcome
  | response : Bool → Option (List TranslatedImage) → FetchOutcome
  deriving DecidableEq, Repr

/-- The observable effects of one `sendImagesToPythonServer` call:
the request body actually POSTed, if any, and the `REPLACE_IMAGES`
message sent back via `chrome.tabs.sendMessage`, if any. -/
structure RelayEffect where
  request : Option (List ImageDescriptor)
  message : Option (Nat × List TranslatedImage)
  deriving DecidableEq, Repr

/-- `sendImagesToPythonServer` (background script lines 48-68): returns
early on an empty array; otherwise POSTs once and, unless the fetch or
`response.json()` rejects, relays the parsed body to tab `tabId`.  The
code never reads `response.ok`, so the status flag is ignored. -/
def sendImagesToPythonServer (images : List ImageDescriptor) (tabId : Nat)
    (outcome : FetchOutcome) : RelayEffect :=
  if images.length = 0 then ⟨none, none⟩
  else
    match outcome with
    | .networkError => ⟨some images, none⟩
    | .response _ none => ⟨some images, none⟩
    | .response _ (some t) => ⟨some images, some (tabId, t)⟩

/-- The assignment `imgElement.src = translatedData`: overwrite the
`src` of the element at index `idx`. -/
def setSrc : Doc → Nat → String → Doc
  | [], _, _ => []
  | img :: rest, 0, d => { img with src := d } :: rest
  | img :: rest, Nat.succ n, d => img :: setSrc rest n d

/-- The body of the `forEach` in `replaceImages` (content.js lines
53-62): look the id up in the reference map and overwrite the element's
source when the element exists and the data is truthy (non-null,
non-empty). -/
def replaceOne (m : RefMap) (doc : Doc) (item : TranslatedImage) : Doc :=
  match lookupRef m item.id, item.translatedData with
  | some idx, some d => if d != "" then setSrc doc idx d else doc
  | some _, none => doc
  | none, _ => doc

/-- `replaceImages` (content.js lines 50-63): process the translated
images in order. -/
def replaceImages (m : RefMap) (doc : Doc) (translatedImages : List TranslatedImage) : Doc :=
  translatedImages.foldl (replaceOne m) doc

/-! ### Decimal representation of ids

JavaScript stringifies the loop index in `img-${i}` as its decimal
numeral, embedded here as Lean's `toString`/`Nat.repr`.  Distinct
indices give distinct ids; we prove this by a parse round trip. -/

/-- The decimal digits of `n`, most significant first. -/
def decDigits (n : Nat) : List Char :=
  if _ : n < 10 then [Nat.digitChar n]
  else decDigits (n / 10) ++ [Nat.digitChar (n % 10)]
  decreasing_by exact Nat.div_lt_self (by omega) (by omega)

theorem decDigits_small {n : Nat} (h : n < 10) : decDigits n = [Nat.digitChar n] := by
  rw [decDigits]; simp [h]

theorem decDigits_large {n : Nat} (h : ¬ n < 10) :
    decDigits n = decDigits (n / 10) ++ [Nat.digitChar (n % 10)] := by
  rw [decDigits]; simp [h]

theorem toDigitsCore_fuel (f : Nat) :
    ∀ n ds, n < f → Nat.toDigitsCore 10 f n ds = decDigits n ++ ds := by
  induction f with
  | zero => intro n ds h; omega
  | succ f ih =>
    intro n ds h
    unfold Nat.toDigitsCore
    by_cases h10 : n < 10
    · have : n / 10 = 0 := Nat.div_eq_of_lt h10
      simp [this, decDigits_small h10, Nat.mod_eq_of_lt h10]
    · have hne : n / 10 ≠ 0 := fun hc =>
        h10 ((Nat.div_eq_zero_iff (by norm_num)).mp hc)
      have hlt : n / 10 < n := Nat.div_lt_self (by omega) (by omega)
      simp only [hne, if_false]
      rw [ih (n / 10) _ (by omega), decDigits_large h10]
      simp

theorem repr_eq_decDigits (n : Nat) : (Nat.repr n).data = decDigits n := by
  show (Nat.toDigits 10 n).asString.data = decDigits n
  unfold Nat.toDigits
  rw [toDigitsCore_fuel (n + 1) n [] (by omega)]
  simp [List.asString]

/-- Numeric value of a decimal digit character. -/
def digitVal (c : Char) : Nat := c.toNat - 48

/-- Read a decimal digit string back into a number. -/
def parseDigits (l : List Char) : Nat :=
  l.foldl (fun acc c => acc * 10 + digitVal c) 0

theorem digitVal_digitChar {d : Nat} (h : d < 10) :
    digitVal (Nat.digitChar d) = d := by
  interval_cases d <;> rfl

theorem parse_decDigits_aux (n : Nat) :
    ∀ a : Nat, List.foldl (fun acc c => acc * 10 + digitVal c) a (decDigits n)
      = a * 10 ^ (decDigits n).length + n := by
  induction n using Nat.strong_induction_on with
  | _ n ih =>
    intro a
    by_cases h : n < 10
    · rw [decDigits_small h]
      simp [digitVal_digitChar h]
    · rw [decDigits_large h]
      have hlt : n / 10 < n := Nat.div_lt_self (by omega) (by omega)
      rw [List.foldl_append, ih (n / 10) hlt a]
      simp only [List.foldl_cons, List.foldl_nil, List.length_append,
        List.length_singleton]
      rw [digitVal_digitChar (Nat.mod_lt n (by omega))]
      ring_nf
      have := Nat.div_add_mod n 10
      omega

theorem parse_decDigits (n : Nat) : parseDigits (decDigits n) = n := by
  have := parse_decDigits_aux n 0
  simpa [parseDigits] using this

theorem decDigits_inj : Function.Injective decDigits := fun a b h => by
  have := parse_decDigits a
  rw [h, parse_decDigits] at this
  omega

theorem natRepr_inj : Function.Injective Nat.repr := fun a b h => by
  apply decDigits_inj
  rw [← repr_eq_decDigits, ← repr_eq_decDigits, h]

theorem mkId_inj : Function.Injective mkId := fun i j h => by
  apply natRepr_inj
  have hd : (mkId i).data = (mkId j).data := by rw [h]
  simp only [mkId, String.data_append] at hd
  exact String.ext (List.append_cancel_left hd)

/-! ### Scanner characterization -/

/-- The descriptors the scan loop emits from the suffix `l`, first
element carrying index `i`: one per above-threshold element whose fetch
succeeds. -/
def expectedResults (fetch : String → Option String) : List Img → Nat → List ImageDescriptor
  | [], _ => []
  | img :: rest, i =>
    if img.naturalWidth ≤ 50 ∨ img.naturalHeight ≤ 50 then
      expectedResults fetch rest (i + 1)
    else
      match fetch img.src with
      | some b => ⟨mkId i, b⟩ :: expectedResults fetch rest (i + 1)
      | none => expectedResults fetch rest (i + 1)

theorem collectAux_snd (fetch : String → Option String) :
    ∀ (l : List Img) (i : Nat) (m : RefMap),
      (collectAux fetch l i m).2 = expectedResults fetch l i := by
  intro l
  induction l with
  | nil => intro i m; rfl
  | cons img rest ih =>
    intro i m
    by_cases hq : img.naturalWidth ≤ 50 ∨ img.naturalHeight ≤ 50
    · simp [collectAux, expectedResults, hq, ih]
    · cases hfe : fetch img.src with
      | some b => simp [collectAux, expectedResults, hq, hfe, ih]
      | none => simp [collectAux, expectedResults, hq, hfe, ih]

theorem lookupRef_insert (m : RefMap) (k k' : String) (v : Nat) :
    lookupRef (insertRef m k' v) k = if k' = k then some v else lookupRef m k := by
  by_cases he : k' = k
  · simp [lookupRef, insertRef, List.find?, he]
  · have hb : (k' == k) = false := by simp [he]
    simp [lookupRef, insertRef, List.find?, hb, he]

theorem collectAux_fst_mono (fetch : String → Option String) :
    ∀ (l : List Img) (i : Nat) (m : RefMap) (k : String),
      (lookupRef m k).isSome → (lookupRef (collectAux fetch l i m).1 k).isSome := by
  intro l
  induction l with
  | nil => intro i m k h; exact h
  | cons img rest ih =>
    intro i m k h
    by_cases hq : img.naturalWidth ≤ 50 ∨ img.naturalHeight ≤ 50
    · simpa [collectAux, hq] using ih (i + 1) m k h
    · have h' : (lookupRef (insertRef m (mkId i) i) k).isSome := by
        rw [lookupRef_insert]
        by_cases he : mkId i = k <;> simp [he, h]
      cases hfe : fetch img.src with
      | some b => simpa [collectAux, hq, hfe] using ih (i + 1) (insertRef m (mkId i) i) k h'
      | none => simpa [collectAux, hq, hfe] using ih (i + 1) (insertRef m (mkId i) i) k h'

theorem collectAux_maps_qualifying (fetch : String → Option String) :
    ∀ (l : List Img) (i : Nat) (m : RefMap) (j : Nat) (img : Img),
      l.get? j = some img → 50 < img.naturalWidth → 50 < img.naturalHeight →
      (lookupRef (collectAux fetch l i m).1 (mkId (i + j))).isSome := by
  intro l
  induction l with
  | nil => intro i m j img h _ _; simp at h
  | cons hd rest ih =>
    intro i m j img hget hw hh
    cases j with
    | zero =>
      simp only [List.get?] at hget
      injection hget with hget
      subst hget
      have hq : ¬ (hd.naturalWidth ≤ 50 ∨ hd.naturalHeight ≤ 50) := by omega
      have hm : (lookupRef (insertRef m (mkId i) i) (mkId i)).isSome := by
        rw [lookupRef_insert]; simp
      have hii : i + 0 = i := by omega
      rw [hii]
      cases hfe : fetch hd.src with
      | some b =>
        simpa [collectAux, hq, hfe] using
          collectAux_fst_mono fetch rest (i + 1) (insertRef m (mkId i) i) (mkId i) hm
      | none =>
        simpa [collectAux, hq, hfe] using
          collectAux_fst_mono fetch rest (i + 1) (insertRef m (mkId i) i) (mkId i) hm
    | succ j' =>
      simp only [List.get?] at hget
      have hmk : i + (j' + 1) = (i + 1) + j' := by omega
      rw [hmk]
      by_cases hq : hd.naturalWidth ≤ 50 ∨ hd.naturalHeight ≤ 50
      · simpa [collectAux, hq] using ih (i + 1) m j' img hget hw hh
      · cases hfe : fetch hd.src with
        | some b =>
          simpa [collectAux, hq, hfe] using
            ih (i + 1) (insertRef m (mkId i) i) j' img hget hw hh
        | none =>
          simpa [collectAux, hq, hfe] using
            ih (i + 1) (insertRef m (mkId i) i) j' img hget hw hh

theorem mem_expectedResults (fetch : String → Option String) :
    ∀ (l : List Img) (i j : Nat) (img : Img) (b : String),
      l.get? j = some img → 50 < img.naturalWidth → 50 < img.naturalHeight →
      fetch img.src = some b →
      (⟨mkId (i + j), b⟩ : ImageDescriptor) ∈ expectedResults fetch l i := by
  intro l
  induction l with
  | nil => intro i j img b h _ _ _; simp at h
  | cons hd rest ih =>
    intro i j img b hget hw hh hfe
    cases j with
    | zero =>
      simp only [List.get?] at hget
      injection hget with hget
      subst hget
      have hq : ¬ (hd.naturalWidth ≤ 50 ∨ hd.naturalHeight ≤ 50) := by omega
      have hii : i + 0 = i := by omega
      rw [hii]
      simp [expectedResults, hq, hfe]
    | succ j' =>
      simp only [List.get?] at hget
      have hmk : i + (j' + 1) = (i + 1) + j' := by omega
      rw [hmk]
      by_cases hq : hd.naturalWidth ≤ 50 ∨ hd.naturalHeight ≤ 50
      · simpa [expectedResults, hq] using ih (i + 1) j' img b hget hw hh hfe
      · cases hfe' : fetch hd.src with
        | some b' => simp [expectedResults, hq, hfe', ih (i + 1) j' img b hget hw hh hfe]
        | none => simpa [expectedResults, hq, hfe'] using ih (i + 1) j' img b hget hw hh hfe

theorem mem_expectedResults_ids (fetch : String → Option String) :
    ∀ (l : List Img) (i : Nat) (x : String),
      x ∈ (expectedResults fetch l i).map (fun r => r.id) →
      ∃ j img b, l.get? j = some img ∧ 50 < img.naturalWidth ∧ 50 < img.naturalHeight ∧
        fetch img.src = some b ∧ x = mkId (i + j) := by
  intro l
  induction l with
  | nil => intro i x h; simp [expectedResults] at h
  | cons hd rest ih =>
    intro i x hx
    by_cases hq : hd.naturalWidth ≤ 50 ∨ hd.naturalHeight ≤ 50
    · rw [expectedResults] at hx
      simp only [hq, if_true] at hx
      obtain ⟨j, img, b, hget, hw, hh, hfe, hid⟩ := ih (i + 1) x hx
      exact ⟨j + 1, img, b, by simpa using hget, hw, hh, hfe, by rw [hid]; congr 1; omega⟩
    · rw [expectedResults] at hx
      simp only [hq, if_false] at hx
      cases hfe : fetch hd.src with
      | some b =>
        rw [hfe] at hx
        simp only [List.map_cons, List.mem_cons] at hx
        rcases hx with hx | hx
        · exact ⟨0, hd, b, rfl, by omega, by omega, hfe, by simpa using hx⟩
        · obtain ⟨j, img, b', hget, hw, hh, hfe', hid⟩ := ih (i + 1) x hx
          exact ⟨j + 1, img, b', by simpa using hget, hw, hh, hfe', by rw [hid]; congr 1; omega⟩
      | none =>
        rw [hfe] at hx
        obtain ⟨j, img, b', hget, hw, hh, hfe', hid⟩ := ih (i + 1) x hx
        exact ⟨j + 1, img, b', by simpa using hget, hw, hh, hfe', by rw [hid]; congr 1; omega⟩

/-- The ids of the above-threshold elements of the suffix `l`, first
element carrying index `i`. -/
def qualifyingIds : List Img → Nat → List String
  | [], _ => []
  | img :: rest, i =>
    if img.naturalWidth ≤ 50 ∨ img.naturalHeight ≤ 50 then qualifyingIds rest (i + 1)
    else mkId i :: qualifyingIds rest (i + 1)

theorem expectedResults_ids (fetch : String → Option String)
    (hfetch : ∀ s, (fetch s).isSome) :
    ∀ (l : List Img) (i : Nat),
      (expectedResults fetch l i).map (fun r => r.id) = qualifyingIds l i := by
  intro l
  induction l with
  | nil => intro i; rfl
  | cons hd rest ih =>
    intro i
    by_cases hq : hd.naturalWidth ≤ 50 ∨ hd.naturalHeight ≤ 50
    · simp [expectedResults, qualifyingIds, hq, ih]
    · obtain ⟨b, hb⟩ := Option.isSome_iff_exists.mp (hfetch hd.src)
      simp [expectedResults, qualifyingIds, hq, hb, ih]

theorem mem_qualifyingIds :
    ∀ (l : List Img) (i : Nat) (x : String), x ∈ qualifyingIds l i →
      ∃ j img, l.get? j = some img ∧ 50 < img.naturalWidth ∧ 50 < img.naturalHeight ∧
        x = mkId (i + j) := by
  intro l
  induction l with
  | nil => intro i x h; simp [qualifyingIds] at h
  | cons hd rest ih =>
    intro i x hx
    by_cases hq : hd.naturalWidth ≤ 50 ∨ hd.naturalHeight ≤ 50
    · rw [qualifyingIds] at hx
      simp only [hq, if_true] at hx
      obtain ⟨j, img, hget, hw, hh, hid⟩ := ih (i + 1) x hx
      exact ⟨j + 1, img, by simpa using hget, hw, hh, by rw [hid]; congr 1; omega⟩
    · rw [qualifyingIds] at hx
      simp only [hq, if_false, List.mem_cons] at hx
      rcases hx with hx | hx
      · exact ⟨0, hd, rfl, by omega, by omega, by simpa using hx⟩
      · obtain ⟨j, img, hget, hw, hh, hid⟩ := ih (i + 1) x hx
        exact ⟨j + 1, img, by simpa using hget, hw, hh, by rw [hid]; congr 1; omega⟩

theorem qualifyingIds_mem_of :
    ∀ (l : List Img) (i j : Nat) (img : Img),
      l.get? j = some img → 50 < img.naturalWidth → 50 < img.naturalHeight →
      mkId (i + j) ∈ qualifyingIds l i := by
  intro l
  induction l with
  | nil => intro i j img h _ _; simp at h
  | cons hd rest ih =>
    intro i j img hget hw hh
    cases j with
    | zero =>
      simp only [List.get?] at hget
      injection hget with hget
      subst hget
      have hq : ¬ (hd.naturalWidth ≤ 50 ∨ hd.naturalHeight ≤ 50) := by omega
      simp [qualifyingIds, hq]
    | succ j' =>
      simp only [List.get?] at hget
      have hmk : i + (j' + 1) = (i + 1) + j' := by omega
      rw [hmk]
      by_cases hq : hd.naturalWidth ≤ 50 ∨ hd.naturalHeight ≤ 50
      · simpa [qualifyingIds, hq] using ih (i + 1) j' img hget hw hh
      · simp [qualifyingIds, hq, ih (i + 1) j' img hget hw hh]

theorem qualifyingIds_nodup : ∀ (l : List Img) (i : Nat), (qualifyingIds l i).Nodup := by
  intro l
  induction l with
  | nil => intro i; simp [qualifyingIds]
  | cons hd rest ih =>
    intro i
    by_cases hq : hd.naturalWidth ≤ 50 ∨ hd.naturalHeight ≤ 50
    · simpa [qualifyingIds, hq] using ih (i + 1)
    · rw [qualifyingIds]
      simp only [hq, if_false, List.nodup_cons]
      refine ⟨fun hmem => ?_, ih (i + 1)⟩
      obtain ⟨j, img, _, _, _, hid⟩ := mem_qualifyingIds rest (i + 1) (mkId i) hmem
      have := mkId_inj hid
      omega

/-! ### Updater characterization -/

theorem setSrc_getElem_self : ∀ (doc : Doc) (i : Nat) (d : String),
    (setSrc doc i d)[i]? = doc[i]?.map (fun img => { img with src := d }) := by
  intro doc
  induction doc with
  | nil => intro i d; cases i <;> simp [setSrc]
  | cons hd rest ih =>
    intro i d
    cases i with
    | zero => simp [setSrc]
    | succ i' => simpa [setSrc] using ih i' d

theorem setSrc_getElem_other : ∀ (doc : Doc) (i j : Nat) (d : String), i ≠ j →
    (setSrc doc i d)[j]? = doc[j]? := by
  intro doc
  induction doc with
  | nil => intro i j d _; cases i <;> simp [setSrc]
  | cons hd rest ih =>
    intro i j d hij
    cases i with
    | zero =>
      cases j with
      | zero => exact absurd rfl hij
      | succ j' => simp [setSrc]
    | succ i' =>
      cases j with
      | zero => simp [setSrc]
      | succ j' => simpa [setSrc] using ih i' j' d (by omega)

theorem setSrc_length : ∀ (doc : Doc) (i : Nat) (d : String),
    (setSrc doc i d).length = doc.length := by
  intro doc
  induction doc with
  | nil => intro i d; cases i <;> simp [setSrc]
  | cons hd rest ih =>
    intro i d
    cases i with
    | zero => simp [setSrc]
    | succ i' => simpa [setSrc] using ih i' d

/-- The effective write of one translated-image entry: the element index
and new source it stores, if its guard passes. -/
def effWrite (m : RefMap) (e : TranslatedImage) : Option (Nat × String) :=
  match lookupRef m e.id, e.translatedData with
  | some idx, some d => if d != "" then some (idx, d) else none
  | some _, none => none
  | none, _ => none

theorem replaceOne_getElem (m : RefMap) (doc : Doc) (e : TranslatedImage) (i : Nat) :
    (replaceOne m doc e)[i]? =
      match effWrite m e with
      | some (idx, d) =>
        if idx = i then doc[i]?.map (fun img => { img with src := d })
        else doc[i]?
      | none => doc[i]? := by
  unfold replaceOne effWrite
  cases lookupRef m e.id with
  | none => simp
  | some idx =>
    cases e.translatedData with
    | none => simp
    | some d =>
      by_cases hd : d != ""
      · simp only [hd, if_true]
        by_cases hi : idx = i
        · subst hi; simp [setSrc_getElem_self]
        · simp [hi, setSrc_getElem_other doc idx i d hi]
      · simp [hd]

theorem replaceOne_length (m : RefMap) (doc : Doc) (e : TranslatedImage) :
    (replaceOne m doc e).length = doc.length := by
  unfold replaceOne
  cases lookupRef m e.id with
  | none => rfl
  | some idx =>
    cases e.translatedData with
    | none => rfl
    | some d =>
      by_cases hd : d != ""
      · simp [hd, setSrc_length]
      · simp [hd]

/-- The last effective write to element `i` among the entries of `l`,
processed in order. -/
def lastWrite (m : RefMap) : List TranslatedImage → Nat → Option String
  | [], _ => none
  | e :: rest, i =>
    match lastWrite m rest i with
    | some d => some d
    | none =>
      match effWrite m e with
      | some (idx, d) => if idx = i then some d else none
      | none => none

theorem replaceImages_getElem (m : RefMap) :
    ∀ (l : List TranslatedImage) (doc : Doc) (i : Nat),
      (replaceImages m doc l)[i]? =
        match lastWrite m l i with
        | some d => doc[i]?.map (fun img => { img with src := d })
        | none => doc[i]? := by
  intro l
  induction l with
  | nil => intro doc i; rfl
  | cons e rest ih =>
    intro doc i
    show (replaceImages m (replaceOne m doc e) rest)[i]? = _
    rw [ih (replaceOne m doc e) i, lastWrite]
    cases hrest : lastWrite m rest i with
    | some d =>
      simp only
      rw [replaceOne_getElem m doc e i]
      cases heff : effWrite m e with
      | none => simp
      | some p =>
        obtain ⟨idx, d'⟩ := p
        by_cases hi : idx = i
        · simp only [hi, if_true]
          cases doc[i]? <;> simp
        · simp [hi]
    | none =>
      simp only
      rw [replaceOne_getElem m doc e i]
      cases heff : effWrite m e with
      | none => simp
      | some p =>
        obtain ⟨idx, d'⟩ := p
        by_cases hi : idx = i
        · simp [hi]
        · simp [hi]

theorem replaceImages_length (m : RefMap) :
    ∀ (l : List TranslatedImage) (doc : Doc), (replaceImages m doc l).length = doc.length := by
  intro l
  induction l with
  | nil => intro doc; rfl
  | cons e rest ih =>
    intro doc
    show (replaceImages m (replaceOne m doc e) rest).length = _
    rw [ih, replaceOne_length]

theorem effWrite_eq_some (m : RefMap) (e : TranslatedImage) (idx : Nat) (d : String)
    (h : effWrite m e = some (idx, d)) :
    lookupRef m e.id = some idx ∧ e.translatedData = some d ∧ d ≠ "" := by
  unfold effWrite at h
  cases hl : lookupRef m e.id with
  | none => rw [hl] at h; cases e.translatedData <;> simp at h
  | some idx' =>
    cases ht : e.translatedData with
    | none => rw [hl, ht] at h; simp at h
    | some d' =>
      rw [hl, ht] at h
      by_cases hd : d' != ""
      · simp only [hd, if_true, Option.some_inj, Prod.mk.injEq] at h
        obtain ⟨h1, h2⟩ := h
        subst h1; subst h2
        exact ⟨rfl, rfl, by simpa using hd⟩
      · simp [hd] at h

theorem effWrite_pos (m : RefMap) (id d : String) (idx : Nat)
    (hlook : lookupRef m id = some idx) (hd : d ≠ "") :
    effWrite m ⟨id, some d⟩ = some (idx, d) := by
  unfold effWrite
  simp [hlook, hd]

theorem lastWrite_append (m : RefMap) (l₁ l₂ : List TranslatedImage) (i : Nat) :
    lastWrite m (l₁ ++ l₂) i =
      match lastWrite m l₂ i with
      | some d => some d
      | none => lastWrite m l₁ i := by
  induction l₁ with
  | nil =>
    simp only [List.nil_append, lastWrite]
    cases lastWrite m l₂ i <;> rfl
  | cons e rest ih =>
    simp only [List.cons_append, lastWrite, List.append_eq, ih]
    cases lastWrite m l₂ i with
    | some d => rfl
    | none => cases lastWrite m rest i <;> rfl

theorem lastWrite_none (m : RefMap) (i : Nat) :
    ∀ (l : List TranslatedImage),
      (∀ e ∈ l, lookupRef m e.id = some i → ∀ d', e.translatedData = some d' → d' = "") →
      lastWrite m l i = none := by
  intro l
  induction l with
  | nil => intro _; rfl
  | cons e rest ih =>
    intro h
    rw [lastWrite, ih (fun e' he' => h e' (List.mem_cons_of_mem _ he'))]
    cases heff : effWrite m e with
    | none => rfl
    | some p =>
      obtain ⟨idx, d⟩ := p
      by_cases hi : idx = i
      · exfalso
        obtain ⟨hl, ht, hd⟩ := effWrite_eq_some m e idx d heff
        exact hd (h e (List.mem_cons_self e rest) (hi ▸ hl) d ht)
      · simp [hi]

theorem replaceImages_idem (m : RefMap) (doc : Doc) (l : List TranslatedImage) :
    replaceImages m (replaceImages m doc l) l = replaceImages m doc l := by
  apply List.ext_getElem?
  intro i
  simp only [replaceImages_getElem m l]
  cases hlw : lastWrite m l i with
  | none => rfl
  | some d =>
    simp only
    cases doc[i]? <;> simp

/-! ### The claims -/

/-- The example page of the spec: three images of natural sizes 100×100,
30×30 and 60×60. -/
def exampleDoc : Doc :=
  [⟨100, 100, "a.png"⟩, ⟨30, 30, "b.png"⟩, ⟨60, 60, "c.png"⟩]

/-- A fetch oracle that succeeds on every source. -/
def okFetch : String → Option String :=
  fun s => some ("data:" ++ s)

/-- A two-image page whose first image's fetch fails. -/
def failDoc : Doc :=
  [⟨100, 100, "bad"⟩, ⟨100, 100, "good"⟩]

/-- A fetch oracle that rejects exactly the source `bad`. -/
def failFetch : String → Option String :=
  fun s => if s == "bad" then none else some "B"

/-- C1: a Processed Result whose `id` maps to a live element of the
document and whose `translatedData` is a non-empty payload leaves that
element's source exactly `translatedData` after `replaceImages` runs,
provided no later entry of the sequence writes the same element (the
spec's per-cycle id-uniqueness invariant makes this vacuous in a real
cycle). -/
theorem C1_round_trip (m : RefMap) (doc : Doc) (id d : String) (idx : Nat) (img : Img)
    (pre post : List TranslatedImage)
    (hlook : lookupRef m id = some idx)
    (hlive : doc[idx]? = some img)
    (hd : d ≠ "")
    (hpost : ∀ e ∈ post, lookupRef m e.id = some idx →
      ∀ d', e.translatedData = some d' → d' = "") :
    (replaceImages m doc (pre ++ ⟨id, some d⟩ :: post))[idx]? = some { img with src := d } := by
  rw [replaceImages_getElem]
  have hLW : lastWrite m (pre ++ ⟨id, some d⟩ :: post) idx = some d := by
    rw [lastWrite_append]
    have h2 : lastWrite m (⟨id, some d⟩ :: post) idx = some d := by
      rw [lastWrite, lastWrite_none m idx post hpost]
      rw [effWrite_pos m id d idx hlook hd]
      simp
    rw [h2]
  rw [hLW]
  simp [hlive]

/-- Witness for C1 at a concrete map, page and result. -/
theorem C1_round_trip_witness :
    (replaceImages [("img-0", 0)] [⟨100, 100, "old"⟩]
        ([] ++ (⟨"img-0", some "X"⟩ : TranslatedImage) :: []))[0]? =
      some ⟨100, 100, "X"⟩ :=
  C1_round_trip [("img-0", 0)] [⟨100, 100, "old"⟩] "img-0" "X" 0 ⟨100, 100, "old"⟩ [] []
    (by decide) (by decide) (by decide) (by intro e he; cases he)

/-- C2: when every fetch succeeds, the scanner emits exactly the ids
`img-` + index of the above-threshold elements, each exactly once
(`Nodup`), every above-threshold element's id is present, no
at-or-below-threshold element's id appears, and on the spec's example
page it emits exactly `img-0` and `img-2`. -/
theorem C2_scanner_ids (m : RefMap) (doc : Doc) (fetch : String → Option String)
    (hfetch : ∀ s, (fetch s).isSome) :
    ((collectImageData m doc fetch).2.images.map (fun r => r.id) = qualifyingIds doc 0
      ∧ ((collectImageData m doc fetch).2.images.map (fun r => r.id)).Nodup)
    ∧ (∀ j img, doc.get? j = some img → 50 < img.naturalWidth → 50 < img.naturalHeight →
        mkId j ∈ (collectImageData m doc fetch).2.images.map (fun r => r.id))
    ∧ (∀ j img, doc.get? j = some img → (img.naturalWidth ≤ 50 ∨ img.naturalHeight ≤ 50) →
        mkId j ∉ (collectImageData m doc fetch).2.images.map (fun r => r.id))
    ∧ (collectImageData m exampleDoc fetch).2.images.map (fun r => r.id) = ["img-0", "img-2"] := by
  have hids : ∀ d : Doc, (collectImageData m d fetch).2.images.map (fun r => r.id)
      = qualifyingIds d 0 := by
    intro d
    show ((collectAux fetch d 0 m).2.map (fun r => r.id)) = _
    rw [collectAux_snd, expectedResults_ids fetch hfetch]
  refine ⟨⟨hids doc, ?_⟩, ?_, ?_, ?_⟩
  · rw [hids doc]; exact qualifyingIds_nodup doc 0
  · intro j img hj hw hh
    rw [hids doc]
    simpa using qualifyingIds_mem_of doc 0 j img hj hw hh
  · intro j img hj hle hmem
    rw [hids doc] at hmem
    obtain ⟨j', img', hj', hw', hh', hid⟩ := mem_qualifyingIds doc 0 (mkId j) hmem
    have hjj : j = j' := by have := mkId_inj hid; omega
    subst hjj
    rw [hj] at hj'
    injection hj' with hj'
    subst hj'
    omega
  · rw [hids exampleDoc]
    decide

/-- Witness for C2 on the example page with an everywhere-succeeding
fetch. -/
theorem C2_scanner_ids_witness :
    (collectImageData [] exampleDoc okFetch).2.images.map (fun r => r.id)
      = ["img-0", "img-2"] :=
  (C2_scanner_ids [] exampleDoc okFetch (fun _ => rfl)).2.2.2

/-- C3 counterexample: a non-2xx response (`ok = false`) whose body
parses as JSON is not treated as a failure: `sendImagesToPythonServer`
does send a `REPLACE_IMAGES` message back, contradicting the claim that
every non-2xx request sends none. -/
theorem C3_non2xx_cex :
    (sendImagesToPythonServer [⟨"img-0", "payload"⟩] 7
        (FetchOutcome.response false (some [⟨"img-0", some "t"⟩]))).message
      = some (7, [⟨"img-0", some "t"⟩]) := by
  decide

/-- C3 amended: a relay request that fails by network error or by a
malformed (non-JSON) body is caught and no `REPLACE_IMAGES` message is
sent; the HTTP status is never consulted. -/
theorem C3_failures_swallowed (images : List ImageDescriptor) (tabId : Nat) (ok : Bool) :
    (sendImagesToPythonServer images tabId FetchOutcome.networkError).message = none
    ∧ (sendImagesToPythonServer images tabId (FetchOutcome.response ok none)).message = none := by
  unfold sendImagesToPythonServer
  by_cases h : images.length = 0 <;> simp [h]

/-- C4 counterexample: run a first cycle on a two-image page (binding
`img-0` and `img-1`), then a second cycle on a one-image page.  At the
start of (and after) the second run the map still holds the first
cycle's `img-1` entry: it is not rebuilt from scratch. -/
theorem C4_fresh_map_cex :
    lookupRef (collectImageData
        (collectImageData [] [⟨100, 100, "a"⟩, ⟨100, 100, "b"⟩] okFetch).1
        [⟨100, 100, "c"⟩] okFetch).1 "img-1" = some 1 := by
  decide

/-- C4 amended: the reference map is never cleared: a collection cycle
only adds or overwrites entries, so every id bound before a scanner run
is still bound after it, and identifier-to-element state is durable
across cycles. -/
theorem C4_map_durable (m : RefMap) (doc : Doc) (fetch : String → Option String)
    (k : String) (h : (lookupRef m k).isSome) :
    (lookupRef (collectImageData m doc fetch).1 k).isSome :=
  collectAux_fst_mono fetch doc 0 m k h

/-- Witness for the amended C4: a stale binding survives a full cycle. -/
theorem C4_map_durable_witness :
    (lookupRef (collectImageData [("img-9", 9)] exampleDoc okFetch).1 "img-9").isSome = true :=
  C4_map_durable [("img-9", 9)] exampleDoc okFetch "img-9" (by decide)

/-- C5: if the fetch of the above-threshold image at position `j` fails,
the scan still sends its one `IMAGES_FOUND` message, the message still
carries a descriptor for every other above-threshold image whose fetch
succeeded, and only the failed image's id is missing. -/
theorem C5_failure_isolation (m : RefMap) (doc : Doc) (fetch : String → Option String)
    (j : Nat) (imgj : Img)
    (hj : doc.get? j = some imgj) (_hw : 50 < imgj.naturalWidth)
    (_hh : 50 < imgj.naturalHeight) (hfail : fetch imgj.src = none) :
    ((collectImageData m doc fetch).2.action = "IMAGES_FOUND")
    ∧ (∀ k imgk b, doc.get? k = some imgk → 50 < imgk.naturalWidth →
        50 < imgk.naturalHeight → fetch imgk.src = some b →
        (⟨mkId k, b⟩ : ImageDescriptor) ∈ (collectImageData m doc fetch).2.images)
    ∧ mkId j ∉ (collectImageData m doc fetch).2.images.map (fun r => r.id) := by
  have himg : (collectImageData m doc fetch).2.images = expectedResults fetch doc 0 := by
    show (collectAux fetch doc 0 m).2 = _
    exact collectAux_snd fetch doc 0 m
  refine ⟨rfl, ?_, ?_⟩
  · intro k imgk b hk hw' hh' hfe
    rw [himg]
    simpa using mem_expectedResults fetch doc 0 k imgk b hk hw' hh' hfe
  · intro hmem
    rw [himg] at hmem
    obtain ⟨j', img', b, hj', hw', hh', hfe', hid⟩ :=
      mem_expectedResults_ids fetch doc 0 (mkId j) hmem
    have hjj : j = j' := by have := mkId_inj hid; omega
    subst hjj
    rw [hj] at hj'
    injection hj' with hj'
    subst hj'
    rw [hfail] at hfe'
    exact Option.noConfusion hfe'

/-- Witness for C5 on `failDoc`: the failing first image is omitted, the
succeeding second image's descriptor is still emitted. -/
theorem C5_failure_isolation_witness :
    (⟨"img-1", "B"⟩ : ImageDescriptor) ∈ (collectImageData [] failDoc failFetch).2.images
    ∧ "img-0" ∉ (collectImageData [] failDoc failFetch).2.images.map (fun r => r.id) := by
  have h := C5_failure_isolation [] failDoc failFetch 0 ⟨100, 100, "bad"⟩
    (by decide) (by decide) (by decide) (by decide)
  have e1 : mkId 1 = "img-1" := by decide
  have e0 : mkId 0 = "img-0" := by decide
  refine ⟨?_, ?_⟩
  · have := h.2.1 1 ⟨100, 100, "good"⟩ "B" (by decide) (by decide) (by decide) (by decide)
    rwa [e1] at this
  · have := h.2.2
    rwa [e0] at this

/-- C6: an empty descriptor sequence makes the relay return before the
network call: no request is POSTed (and no message is sent). -/
theorem C6_empty_no_request (tabId : Nat) (outcome : FetchOutcome) :
    (sendImagesToPythonServer [] tabId outcome).request = none
    ∧ (sendImagesToPythonServer [] tabId outcome).message = none := by
  constructor <;> rfl

/-- C7: a Processed Result whose id is absent from the reference map, or
whose `translatedData` is null, changes nothing: the entry is the
identity on the document, both alone and inside a sequence. -/
theorem C7_unknown_or_null_noop (m : RefMap) (doc : Doc) (e : TranslatedImage)
    (rest : List TranslatedImage)
    (h : lookupRef m e.id = none ∨ e.translatedData = none) :
    replaceOne m doc e = doc
    ∧ replaceImages m doc (e :: rest) = replaceImages m doc rest := by
  have h1 : replaceOne m doc e = doc := by
    unfold replaceOne
    rcases h with h | h
    · rw [h]
    · rw [h]; cases lookupRef m e.id <;> rfl
  refine ⟨h1, ?_⟩
  show (e :: rest).foldl (replaceOne m) doc = _
  rw [List.foldl_cons, h1]
  rfl

/-- Witness for C7: an id unknown to a non-empty map leaves the page
untouched. -/
theorem C7_unknown_or_null_noop_witness :
    replaceOne [("img-1", 0)] [⟨100, 100, "keep"⟩] ⟨"img-0", some "X"⟩ = [⟨100, 100, "keep"⟩]
    ∧ replaceImages [("img-1", 0)] [⟨100, 100, "keep"⟩] [⟨"img-0", some "X"⟩]
      = replaceImages [("img-1", 0)] [⟨100, 100, "keep"⟩] [] :=
  C7_unknown_or_null_noop [("img-1", 0)] [⟨100, 100, "keep"⟩] ⟨"img-0", some "X"⟩ []
    (Or.inl (by decide))

/-- C8: `replaceImages` is idempotent: replaying the same Processed
Result sequence against the same reference map reproduces the state
reached after one application. -/
theorem C8_replace_idempotent (m : RefMap) (doc : Doc) (l : List TranslatedImage) :
    replaceImages m (replaceImages m doc l) l = replaceImages m doc l :=
  replaceImages_idem m doc l

/-- C9: the scanner stores the reference-map entry before attempting the
fetch, so every above-threshold image is bound in the final map whatever
its fetch outcome; on `failDoc` the map's key `img-0` is bound while no
emitted descriptor carries it, so the key set strictly exceeds the
emitted ids. -/
theorem C9_map_superset (m : RefMap) (doc : Doc) (fetch : String → Option String)
    (j : Nat) (img : Img)
    (hj : doc.get? j = some img) (hw : 50 < img.naturalWidth) (hh : 50 < img.naturalHeight) :
    ((lookupRef (collectImageData m doc fetch).1 (mkId j)).isSome = true)
    ∧ ((lookupRef (collectImageData [] failDoc failFetch).1 "img-0").isSome = true
        ∧ "img-0" ∉ (collectImageData [] failDoc failFetch).2.images.map (fun r => r.id)) := by
  refine ⟨?_, by decide, by decide⟩
  simpa using collectAux_maps_qualifying fetch doc 0 m j img hj hw hh

/-- Witness for C9: the failing image of `failDoc` is still bound in the
map. -/
theorem C9_map_superset_witness :
    (lookupRef (collectImageData [] failDoc failFetch).1 (mkId 0)).isSome = true :=
  (C9_map_superset [] failDoc failFetch 0 ⟨100, 100, "bad"⟩ (by decide) (by decide) (by decide)).1

/-- C10: a Processed Result carrying the empty string is treated exactly
like a null or absent one: `replaceOne` leaves the document unchanged. -/
theorem C10_empty_string_noop (m : RefMap) (doc : Doc) (i : String) :
    replaceOne m doc ⟨i, some ""⟩ = doc ∧ replaceOne m doc ⟨i, none⟩ = doc := by
  constructor
  · unfold replaceOne
    cases lookupRef m i <;> simp
  · unfold replaceOne
    cases lookupRef m i <;> rfl

end Keper
